import Mathlib

/-!
Shallow embedding of the Argent Core library header (src/core.h): the
error-code constants, the error-slot accessors, the branch-prediction hint
macros, and the label-based try/catch/finally error-propagation convention
built from AG_TRY, AG_CATCH, AG_FINALLY, the ag_assert family and ag_try.
-/

namespace Argent

/-- C error-code type: `typedef ag_word ag_erno;` where `ag_word` is
`uint_fast64_t`, an unsigned native word 64 bits wide.  Values are
modelled as naturals; a value fits the type when it is below `2 ^ 64`. -/
abbrev ag_erno := Nat

/-- Constant `AG_ERNO_NULL ((ag_erno) 0x0)`: no error has occurred. -/
def AG_ERNO_NULL : ag_erno := 0x0

/-- Constant `AG_ERNO_HANDLE ((ag_erno) 0x1)`: invalid pointer error. -/
def AG_ERNO_HANDLE : ag_erno := 0x1

/-- Constant `AG_ERNO_STATE ((ag_erno) 0x2)`: invalid state error. -/
def AG_ERNO_STATE : ag_erno := 0x2

/-- Constant `AG_ERNO_RANGE ((ag_erno) 0x3)`: out of bounds error. -/
def AG_ERNO_RANGE : ag_erno := 0x3

/-- Constant `AG_ERNO_STRING ((ag_erno) 0x4)`: invalid string error. -/
def AG_ERNO_STRING : ag_erno := 0x4

/-- An error code representable in the native word type backing
`ag_erno` (`uint_fast64_t`, 64 bits wide). -/
def ag_erno_representable (e : Nat) : Prop := e < 2 ^ 64

/-- Model of the macro `ag_erno_get()`, which expands to
`((const ag_erno) ag__erno__)`: it reads the activation's error slot. -/
def ag_erno_get (slot : ag_erno) : ag_erno := slot

/-- Model of the macro `ag_erno_set(e)`, which expands to
`(ag__erno__ = (e))`: it stores `e` into the activation's error slot, a
native-word variable, so the stored value is reduced to the word range. -/
def ag_erno_set (slot : ag_erno) (e : Nat) : ag_erno := e % 2 ^ 64

/-- C logical negation `!x` on a scalar: `1` when `x` is zero, else `0`. -/
def cNot (x : Int) : Int := if x = 0 then 1 else 0

/-- Model of GCC `__builtin_expect(x, expected)`: it returns `x`
unchanged; the second argument only biases branch prediction. -/
def builtin_expect (x expected : Int) : Int := x

/-- Macro `ag_likely(p)`, expanding to `(__builtin_expect(!!(p), 1))`. -/
def ag_likely (p : Int) : Int := builtin_expect (cNot (cNot p)) 1

/-- Macro `ag_unlikely(p)`, expanding to `(__builtin_expect(!!(p), 0))`. -/
def ag_unlikely (p : Int) : Int := builtin_expect (cNot (cNot p)) 0

/-- A C string argument as seen by `ag_assert_string`: either a null
pointer (`none`) or a pointer to a byte sequence in memory (`some`). -/
abbrev CStringArg := Option (List Nat)

/-- Dereferencing the string pointer, `*(s)`: the first byte of the
pointed-to memory.  A C string object holds at least its terminating
zero byte, so the empty string occupies the memory `[0]`. -/
def cFirstByte (bytes : List Nat) : Nat := bytes.headD 0

/-- Truth value of the C expression `(s) && *(s)` from the expansion of
`ag_assert_string(s)`: the pointer is non-null and, short-circuiting
past a null pointer, its first byte is non-zero. -/
def ag_assert_string_pred (s : CStringArg) : Bool :=
  match s with
  | none => false
  | some bytes => cFirstByte bytes != 0

/-- A statement of the guarded (`AG_TRY`) region of an activation, over a
store type `σ` holding the function's other local state.  Mirrors what
the library lets client code write there: an ordinary C statement
(which may read the error slot through `ag_erno_get` but cannot write
it), `ag_assert(p, e)`, `ag_try(call)`, and `ag_erno_set(e)`. -/
inductive Stmt (σ : Type) where
  | plain : (ag_erno → σ → σ) → Stmt σ
  | ag_assert : (ag_erno → σ → Bool) → ag_erno → Stmt σ
  | ag_try : (σ → ag_erno × σ) → Stmt σ
  | ag_erno_set : (ag_erno → σ → ag_erno) → Stmt σ

/-- A statement of the `AG_CATCH` or `AG_FINALLY` region.  The header
forbids `ag_assert` and `ag_try` there (their `goto AG__CATCH__` would
loop), so only ordinary statements and `ag_erno_set` remain. -/
inductive HStmt (σ : Type) where
  | plain : (ag_erno → σ → σ) → HStmt σ
  | ag_erno_set : (ag_erno → σ → ag_erno) → HStmt σ

/-- The three labelled regions of an activation. -/
inductive Region where
  | guardedR
  | catchR
  | finallyR
deriving DecidableEq

/-- Observable execution events: `check b` records that an `ag_assert`
or `ag_try` test ran, with `b = true` when it failed (stored an error
and jumped to `AG__CATCH__`); `enter r` records control reaching the
label opening region `r`. -/
inductive Event where
  | check : Bool → Event
  | enter : Region → Event
deriving DecidableEq

/-- How the guarded region ended: control fell through its end (heading
for the `goto AG__FINALLY__` planted by `AG_CATCH`), or a failed check
jumped to `AG__CATCH__`, skipping the listed remaining statements. -/
inductive GuardedOutcome (σ : Type) where
  | fellThrough : ag_erno → σ → GuardedOutcome σ
  | jumped : ag_erno → σ → List (Stmt σ) → GuardedOutcome σ

/-- Run the guarded region from error slot `erno` and store `s`.
Mirrors the macro expansions: `ag_assert(p, e)` is
`if (ag_unlikely (!(p))) { ag__erno__ = (e); goto AG__CATCH__; }` and
`ag_try(p)` is `if (ag_unlikely (ag__erno__ = (p))) goto AG__CATCH__;`
(note the unconditional store of the call's result into the slot). -/
def runGuarded {σ : Type} : List (Stmt σ) → ag_erno → σ → GuardedOutcome σ × List Event
  | [], erno, s => (GuardedOutcome.fellThrough erno s, [])
  | Stmt.plain f :: rest, erno, s => runGuarded rest erno (f erno s)
  | Stmt.ag_assert p e :: rest, erno, s =>
      if p erno s then
        ((runGuarded rest erno s).1,
          Event.check false :: (runGuarded rest erno s).2)
      else
        (GuardedOutcome.jumped e s rest, [Event.check true])
  | Stmt.ag_try call :: rest, erno, s =>
      if (call s).1 ≠ AG_ERNO_NULL then
        (GuardedOutcome.jumped (call s).1 (call s).2 rest, [Event.check true])
      else
        ((runGuarded rest (call s).1 (call s).2).1,
          Event.check false :: (runGuarded rest (call s).1 (call s).2).2)
  | Stmt.ag_erno_set f :: rest, erno, s => runGuarded rest (f erno s) s

/-- Run a handler (`AG_CATCH` or `AG_FINALLY`) region: straight-line
execution threading the error slot and the store. -/
def runHandler {σ : Type} : List (HStmt σ) → ag_erno → σ → ag_erno × σ
  | [], erno, s => (erno, s)
  | HStmt.plain f :: rest, erno, s => runHandler rest erno (f erno s)
  | HStmt.ag_erno_set f :: rest, erno, s => runHandler rest (f erno s) s

/-- A function activation written with the convention: the `AG_TRY`
region, the `AG_CATCH` region and the `AG_FINALLY` region. -/
structure Func (σ : Type) where
  tryBlock : List (Stmt σ)
  catchBlock : List (HStmt σ)
  finallyBlock : List (HStmt σ)

/-- Finish an activation from the guarded region's outcome, mirroring
the labels: on fall-through the `goto AG__FINALLY__` planted by
`AG_CATCH` jumps straight to cleanup; on a failed check control is at
`AG__CATCH__`, runs the catch region, then falls into `AG__FINALLY__`.
The activation ends by `return ag_erno_get();` so the first component
of the result is the code yielded to the caller. -/
def ag_func_finish {σ : Type} (F : Func σ) :
    GuardedOutcome σ × List Event → (ag_erno × σ) × List Event
  | (GuardedOutcome.fellThrough e s1, evs) =>
      (runHandler F.finallyBlock e s1,
        Event.enter Region.guardedR :: (evs ++ [Event.enter Region.finallyR]))
  | (GuardedOutcome.jumped e s1 _, evs) =>
      (runHandler F.finallyBlock (runHandler F.catchBlock e s1).1
          (runHandler F.catchBlock e s1).2,
        Event.enter Region.guardedR ::
          (evs ++ [Event.enter Region.catchR, Event.enter Region.finallyR]))

/-- Run one activation.  `AG_TRY` expands to
`register ag_erno ag__erno__ = AG_ERNO_NULL; goto AG__TRY__; AG__TRY__`
so the slot starts at `AG_ERNO_NULL` and control enters the guarded
region. -/
def ag_func_run {σ : Type} (F : Func σ) (s : σ) : (ag_erno × σ) × List Event :=
  ag_func_finish F (runGuarded F.tryBlock AG_ERNO_NULL s)

/-- The error code the activation returns to its caller. -/
def ag_func_result {σ : Type} (F : Func σ) (s : σ) : ag_erno :=
  (ag_func_run F s).1.1

/-- The event trace of one activation. -/
def ag_func_trace {σ : Type} (F : Func σ) (s : σ) : List Event :=
  (ag_func_run F s).2

/-- Macro `ag_assert_handle(p)` = `ag_assert((p), AG_ERNO_HANDLE)`. -/
def ag_assert_handle {σ : Type} (p : ag_erno → σ → Bool) : Stmt σ :=
  Stmt.ag_assert p AG_ERNO_HANDLE

/-- Macro `ag_assert_state(p)` = `ag_assert((p), AG_ERNO_STATE)`. -/
def ag_assert_state {σ : Type} (p : ag_erno → σ → Bool) : Stmt σ :=
  Stmt.ag_assert p AG_ERNO_STATE

/-- Macro `ag_assert_range(p)` = `ag_assert((p), AG_ERNO_RANGE)`. -/
def ag_assert_range {σ : Type} (p : ag_erno → σ → Bool) : Stmt σ :=
  Stmt.ag_assert p AG_ERNO_RANGE

/-- Macro `ag_assert_string(s)` =
`ag_assert((s) && *(s), AG_ERNO_STRING)`. -/
def ag_assert_string {σ : Type} (s : CStringArg) : Stmt σ :=
  Stmt.ag_assert (fun _ _ => ag_assert_string_pred s) AG_ERNO_STRING

/-- Discriminator: is this guarded statement an `ag_erno_set`? -/
def Stmt.isErnoSet {σ : Type} : Stmt σ → Bool
  | Stmt.ag_erno_set _ => true
  | _ => false

/-- Discriminator: is this handler statement an `ag_erno_set`? -/
def HStmt.isErnoSet {σ : Type} : HStmt σ → Bool
  | HStmt.ag_erno_set _ => true
  | _ => false

/-- An activation none of whose regions invokes `ag_erno_set`: the
error slot is then touched only by the machinery itself. -/
def FuncNoErnoSet {σ : Type} (F : Func σ) : Prop :=
  (∀ st ∈ F.tryBlock, st.isErnoSet = false)
  ∧ (∀ st ∈ F.catchBlock, st.isErnoSet = false)
  ∧ (∀ st ∈ F.finallyBlock, st.isErnoSet = false)

/-- Every run of a guarded region produces some passing checks followed
by at most one failing check: the event list is `replicate n (check
false)`, closed by a single `check true` exactly when the outcome is a
jump to the catch label. -/
lemma runGuarded_shape {σ : Type} (stmts : List (Stmt σ)) :
    ∀ (erno : ag_erno) (s : σ),
      (∃ n e s1 sk,
        runGuarded stmts erno s
          = (GuardedOutcome.jumped e s1 sk,
              List.replicate n (Event.check false) ++ [Event.check true]))
      ∨ (∃ n e s1,
        runGuarded stmts erno s
          = (GuardedOutcome.fellThrough e s1,
              List.replicate n (Event.check false))) := by
  induction stmts with
  | nil =>
    intro erno s
    right
    exact ⟨0, erno, s, rfl⟩
  | cons head rest ih =>
    intro erno s
    cases head with
    | plain f =>
      simpa [runGuarded] using ih erno (f erno s)
    | ag_assert p e =>
      by_cases hp : p erno s
      · rcases ih erno s with ⟨n, e1, s1, sk, h⟩ | ⟨n, e1, s1, h⟩
        · exact Or.inl ⟨n + 1, e1, s1, sk, by
            simp [runGuarded, hp, h, List.replicate_succ]⟩
        · exact Or.inr ⟨n + 1, e1, s1, by
            simp [runGuarded, hp, h, List.replicate_succ]⟩
      · exact Or.inl ⟨0, e, s, rest, by simp [runGuarded, hp]⟩
    | ag_try call =>
      by_cases hc : (call s).1 = AG_ERNO_NULL
      · rcases ih AG_ERNO_NULL (call s).2 with ⟨n, e1, s1, sk, h⟩ | ⟨n, e1, s1, h⟩
        · exact Or.inl ⟨n + 1, e1, s1, sk, by
            simp [runGuarded, hc, h, List.replicate_succ]⟩
        · exact Or.inr ⟨n + 1, e1, s1, by
            simp [runGuarded, hc, h, List.replicate_succ]⟩
      · exact Or.inl ⟨0, (call s).1, (call s).2, rest, by simp [runGuarded, hc]⟩
    | ag_erno_set f =>
      simpa [runGuarded] using ih (f erno s) s

/-- In a list of the form `A ++ a :: T` where `a` occurs in neither `A`
nor `T`, any decomposition around an occurrence of `a` ends in `T`. -/
lemma last_occurrence_suffix {α : Type} (a : α) (T : List α) :
    ∀ A : List α, a ∉ A → a ∉ T →
      ∀ pre suf : List α, A ++ a :: T = pre ++ a :: suf → suf = T := by
  intro A
  induction A with
  | nil =>
    intro _ hT pre suf h
    cases pre with
    | nil =>
      simp only [List.nil_append] at h
      injection h with h1 h2
      exact h2.symm
    | cons p pre2 =>
      simp only [List.nil_append, List.cons_append] at h
      injection h with h1 h2
      have hmem : a ∈ T := by
        rw [h2]
        exact List.mem_append_right pre2 (List.mem_cons_self a suf)
      exact absurd hmem hT
  | cons x A2 ih =>
    intro hA hT pre suf h
    cases pre with
    | nil =>
      simp only [List.cons_append, List.nil_append] at h
      injection h with h1 h2
      exact absurd (by simp [h1]) hA
    | cons p pre2 =>
      simp only [List.cons_append] at h
      injection h with h1 h2
      exact ih (fun hmem => hA (List.mem_cons_of_mem _ hmem)) hT pre2 suf h2

/-- A handler region that contains no `ag_erno_set` leaves the error
slot untouched. -/
lemma runHandler_noSet {σ : Type} (hs : List (HStmt σ)) :
    (∀ st ∈ hs, st.isErnoSet = false) →
    ∀ (erno : ag_erno) (s : σ), (runHandler hs erno s).1 = erno := by
  induction hs with
  | nil => intro _ erno s; rfl
  | cons h rest ih =>
    intro hno erno s
    cases h with
    | plain f =>
      simpa [runHandler] using
        ih (fun st hst => hno st (List.mem_cons_of_mem _ hst)) erno (f erno s)
    | ag_erno_set f =>
      have hbad := hno _ (List.mem_cons_self _ _)
      simp [HStmt.isErnoSet] at hbad

/-- Starting from `AG_ERNO_NULL`, a guarded region without
`ag_erno_set` that falls through leaves the slot at `AG_ERNO_NULL`:
passing asserts do not write it and a passing `ag_try` stores the zero
result it just tested. -/
lemma runGuarded_noSet_success {σ : Type} (stmts : List (Stmt σ)) :
    (∀ st ∈ stmts, st.isErnoSet = false) →
    ∀ (s : σ) (e : ag_erno) (s1 : σ),
      (runGuarded stmts AG_ERNO_NULL s).1 = GuardedOutcome.fellThrough e s1 →
      e = AG_ERNO_NULL := by
  induction stmts with
  | nil =>
    intro _ s e s1 h
    simp [runGuarded] at h
    exact h.1.symm
  | cons head rest ih =>
    intro hno s e s1 h
    have hrest : ∀ st ∈ rest, st.isErnoSet = false :=
      fun st hst => hno st (List.mem_cons_of_mem _ hst)
    cases head with
    | plain f =>
      exact ih hrest (f AG_ERNO_NULL s) e s1 (by simpa [runGuarded] using h)
    | ag_assert p e2 =>
      by_cases hp : p AG_ERNO_NULL s
      · exact ih hrest s e s1 (by simpa [runGuarded, hp] using h)
      · simp [runGuarded, hp] at h
    | ag_try call =>
      by_cases hc : (call s).1 = AG_ERNO_NULL
      · refine ih hrest (call s).2 e s1 ?_
        have h2 := h
        simp [runGuarded, hc] at h2
        simpa [hc] using h2
      · simp [runGuarded, hc] at h
    | ag_erno_set f =>
      have hbad := hno _ (List.mem_cons_self _ _)
      simp [Stmt.isErnoSet] at hbad

/-- The result of an activation depends on the guarded outcome only,
not on the recorded events. -/
lemma ag_func_finish_fst {σ : Type} (F : Func σ) (out : GuardedOutcome σ)
    (evs evs2 : List Event) :
    (ag_func_finish F (out, evs)).1 = (ag_func_finish F (out, evs2)).1 := by
  cases out <;> rfl

/-- The result of an activation depends on the guarded outcome and the
catch and finally regions only: neither the recorded events nor the
text of the guarded region matters once its outcome is fixed. -/
lemma ag_func_finish_fst_congr {σ : Type} (tb tb2 : List (Stmt σ))
    (cb fb : List (HStmt σ)) (out : GuardedOutcome σ) (evs evs2 : List Event) :
    (ag_func_finish ⟨tb, cb, fb⟩ (out, evs)).1
      = (ag_func_finish ⟨tb2, cb, fb⟩ (out, evs2)).1 := by
  cases out <;> rfl

/-- Normal form of an activation trace: entry to the guarded region,
a run of passing checks, then either a failing check followed by the
catch and finally labels, or the finally label directly. -/
lemma ag_func_trace_shape {σ : Type} (F : Func σ) (s : σ) :
    (∃ n, ag_func_trace F s
        = Event.enter Region.guardedR ::
            (List.replicate n (Event.check false)
              ++ [Event.check true, Event.enter Region.catchR,
                  Event.enter Region.finallyR]))
    ∨ (∃ n, ag_func_trace F s
        = Event.enter Region.guardedR ::
            (List.replicate n (Event.check false)
              ++ [Event.enter Region.finallyR])) := by
  rcases runGuarded_shape F.tryBlock AG_ERNO_NULL s with
    ⟨n, e, s1, sk, h⟩ | ⟨n, e, s1, h⟩
  · exact Or.inl ⟨n, by simp [ag_func_trace, ag_func_run, ag_func_finish, h]⟩
  · exact Or.inr ⟨n, by simp [ag_func_trace, ag_func_run, ag_func_finish, h]⟩

/-- Claim C8: the library reserves five error-code constants; the
no-error constant is exactly zero and the invalid-reference,
invalid-state, out-of-range and invalid-text constants are
pairwise-distinct non-zero values. -/
theorem claim8_reserved_codes :
    AG_ERNO_NULL = 0
    ∧ AG_ERNO_HANDLE ≠ 0 ∧ AG_ERNO_STATE ≠ 0
    ∧ AG_ERNO_RANGE ≠ 0 ∧ AG_ERNO_STRING ≠ 0
    ∧ AG_ERNO_HANDLE ≠ AG_ERNO_STATE ∧ AG_ERNO_HANDLE ≠ AG_ERNO_RANGE
    ∧ AG_ERNO_HANDLE ≠ AG_ERNO_STRING ∧ AG_ERNO_STATE ≠ AG_ERNO_RANGE
    ∧ AG_ERNO_STATE ≠ AG_ERNO_STRING ∧ AG_ERNO_RANGE ≠ AG_ERNO_STRING := by
  decide

/-- Claim C6: for every error code representable in the native word
type, setting the error slot with ag_erno_set and reading it back with
ag_erno_get returns exactly that code, whatever the slot held before. -/
theorem claim6_erno_roundtrip (slot : ag_erno) (e : Nat) :
    ag_erno_representable e → ag_erno_get (ag_erno_set slot e) = e := by
  intro h
  simpa [ag_erno_get, ag_erno_set] using Nat.mod_eq_of_lt h

/-- Concrete instances of claim C6: the round trip at a reserved code
and at a caller-defined code. -/
theorem claim6_erno_roundtrip_witness :
    ag_erno_get (ag_erno_set AG_ERNO_NULL AG_ERNO_STRING) = AG_ERNO_STRING
    ∧ ag_erno_get (ag_erno_set AG_ERNO_RANGE 0x100) = 0x100 :=
  ⟨claim6_erno_roundtrip AG_ERNO_NULL AG_ERNO_STRING
      (by norm_num [ag_erno_representable, AG_ERNO_STRING]),
   claim6_erno_roundtrip AG_ERNO_RANGE 0x100
      (by norm_num [ag_erno_representable])⟩

/-- Claim C9: ag_likely and ag_unlikely return the wrapped predicate's
value unchanged on boolean values, agree with each other regardless of
the expectation hint, and never alter the predicate's truth value. -/
theorem claim9_likely_identity (p : Int) :
    ((p = 0 ∨ p = 1) → ag_likely p = p ∧ ag_unlikely p = p)
    ∧ ag_likely p = ag_unlikely p
    ∧ (ag_likely p ≠ 0 ↔ p ≠ 0) := by
  refine ⟨?_, rfl, ?_⟩
  · rintro (rfl | rfl) <;> simp [ag_likely, ag_unlikely, builtin_expect, cNot]
  · by_cases hp : p = 0 <;> simp [ag_likely, builtin_expect, cNot, hp]

/-- Concrete instance of claim C9: wrapping the boolean values. -/
theorem claim9_likely_identity_witness :
    ag_likely 1 = 1 ∧ ag_unlikely 1 = 1 :=
  (claim9_likely_identity 1).1 (Or.inr rfl)

/-- Claim C10: the validity check of ag_assert_string examines only the
pointer and the first byte: for a non-null string it succeeds exactly
when the first byte is non-zero, and the bytes after the first never
influence the verdict; a null pointer always fails. -/
theorem claim10_first_byte_only (b : Nat) (tail tail2 : List Nat) :
    ag_assert_string_pred (some (b :: tail))
      = ag_assert_string_pred (some (b :: tail2))
    ∧ (ag_assert_string_pred (some (b :: tail)) = true ↔ b ≠ 0)
    ∧ ag_assert_string_pred none = false := by
  refine ⟨rfl, ?_, rfl⟩
  simp [ag_assert_string_pred, cFirstByte]

/-- Claim C7: ag_assert_string raises AG_ERNO_STRING for a null pointer
and for a present but empty string (first byte zero), and falls through
with the error slot unchanged for any non-empty string. -/
theorem claim7_assert_string {σ : Type} (s : CStringArg)
    (rest : List (Stmt σ)) (st : σ) :
    (s = none →
      runGuarded (ag_assert_string s :: rest) AG_ERNO_NULL st
        = (GuardedOutcome.jumped AG_ERNO_STRING st rest, [Event.check true]))
    ∧ (∀ bytes, s = some bytes → cFirstByte bytes = 0 →
      runGuarded (ag_assert_string s :: rest) AG_ERNO_NULL st
        = (GuardedOutcome.jumped AG_ERNO_STRING st rest, [Event.check true]))
    ∧ (∀ bytes, s = some bytes → cFirstByte bytes ≠ 0 →
      runGuarded (ag_assert_string s :: rest) AG_ERNO_NULL st
        = ((runGuarded rest AG_ERNO_NULL st).1,
            Event.check false :: (runGuarded rest AG_ERNO_NULL st).2)) := by
  refine ⟨?_, ?_, ?_⟩
  · rintro rfl
    simp [ag_assert_string, runGuarded, ag_assert_string_pred]
  · rintro bytes rfl hz
    simp [ag_assert_string, runGuarded, ag_assert_string_pred, hz]
  · rintro bytes rfl hz
    simp [ag_assert_string, runGuarded, ag_assert_string_pred, hz]

/-- Concrete instances of claim C7: a non-empty string passes the check
and a null pointer raises AG_ERNO_STRING. -/
theorem claim7_assert_string_witness :
    runGuarded (ag_assert_string (some [104, 105, 0])
        :: ([] : List (Stmt Unit))) AG_ERNO_NULL ()
      = ((runGuarded ([] : List (Stmt Unit)) AG_ERNO_NULL ()).1,
          Event.check false
            :: (runGuarded ([] : List (Stmt Unit)) AG_ERNO_NULL ()).2)
    ∧ runGuarded (ag_assert_string none :: ([] : List (Stmt Unit)))
        AG_ERNO_NULL ()
      = (GuardedOutcome.jumped AG_ERNO_STRING () [], [Event.check true]) :=
  ⟨(claim7_assert_string (some [104, 105, 0]) [] ()).2.2 [104, 105, 0] rfl
      (by decide),
   (claim7_assert_string none [] ()).1 rfl⟩

/-- Claim C1: inside a guarded region whose error slot holds
AG_ERNO_NULL, a failing ag_assert(p, e) stores exactly e in the slot
and jumps to the catch label, so that no later guarded statement of the
activation executes (the activation behaves identically whatever those
statements are); a passing ag_assert leaves the slot unchanged and
execution continues with the next guarded statement. -/
theorem claim1_ag_assert {σ : Type} (p : ag_erno → σ → Bool) (e : ag_erno)
    (rest : List (Stmt σ)) (s : σ) :
    (p AG_ERNO_NULL s = false →
      runGuarded (Stmt.ag_assert p e :: rest) AG_ERNO_NULL s
        = (GuardedOutcome.jumped e s rest, [Event.check true])
      ∧ ∀ (rest2 : List (Stmt σ)) (cb fb : List (HStmt σ)),
          ag_func_run ⟨Stmt.ag_assert p e :: rest, cb, fb⟩ s
            = ag_func_run ⟨Stmt.ag_assert p e :: rest2, cb, fb⟩ s)
    ∧ (p AG_ERNO_NULL s = true →
      runGuarded (Stmt.ag_assert p e :: rest) AG_ERNO_NULL s
        = ((runGuarded rest AG_ERNO_NULL s).1,
            Event.check false :: (runGuarded rest AG_ERNO_NULL s).2)) := by
  constructor
  · intro hp
    refine ⟨by simp [runGuarded, hp], ?_⟩
    intro rest2 cb fb
    simp [ag_func_run, runGuarded, hp, ag_func_finish]
  · intro hp
    simp [runGuarded, hp]

/-- Concrete instance of claim C1: a failing assert stores its code and
jumps; nothing behind it runs. -/
theorem claim1_ag_assert_witness :
    runGuarded (Stmt.ag_assert (fun _ _ => false) AG_ERNO_RANGE
        :: ([] : List (Stmt Unit))) AG_ERNO_NULL ()
      = (GuardedOutcome.jumped AG_ERNO_RANGE () [], [Event.check true]) :=
  ((claim1_ag_assert (fun _ _ => false) AG_ERNO_RANGE [] ()).1 rfl).1

/-- Claim C2 (amended): ag_try(call) with a non-zero result stores that
result in the error slot and jumps to the catch label exactly as a
failed assert of the call's effects would; with a zero result it stores
that zero in the slot, so whenever the slot already holds AG_ERNO_NULL
the activation continues exactly as if the propagate had been the bare
call. -/
theorem claim2_ag_try {σ : Type} (call : σ → ag_erno × σ)
    (rest : List (Stmt σ)) (erno : ag_erno) (s : σ) :
    ((call s).1 ≠ AG_ERNO_NULL →
      runGuarded (Stmt.ag_try call :: rest) erno s
        = (GuardedOutcome.jumped (call s).1 (call s).2 rest,
            [Event.check true])
      ∧ runGuarded (Stmt.ag_try call :: rest) erno s
          = runGuarded (Stmt.plain (fun _ st => (call st).2)
              :: Stmt.ag_assert (fun _ _ => false) (call s).1 :: rest)
              erno s)
    ∧ ((call s).1 = AG_ERNO_NULL →
      (runGuarded (Stmt.ag_try call :: rest) AG_ERNO_NULL s).1
        = (runGuarded rest AG_ERNO_NULL (call s).2).1
      ∧ ∀ (cb fb : List (HStmt σ)),
          (ag_func_run ⟨Stmt.ag_try call :: rest, cb, fb⟩ s).1
            = (ag_func_run
                ⟨Stmt.plain (fun _ st => (call st).2) :: rest, cb, fb⟩ s).1) := by
  constructor
  · intro hc
    constructor
    · simp [runGuarded, hc]
    · simp [runGuarded, hc]
  · intro hc
    constructor
    · simp [runGuarded, hc]
    · intro cb fb
      rcases hx : runGuarded rest AG_ERNO_NULL (call s).2 with ⟨out, evs⟩
      have hL : runGuarded (Stmt.ag_try call :: rest) AG_ERNO_NULL s
          = (out, Event.check false :: evs) := by
        simp [runGuarded, hc, hx]
      have hR : runGuarded (Stmt.plain (fun _ st => (call st).2) :: rest)
          AG_ERNO_NULL s = (out, evs) := by
        simp [runGuarded, hx]
      show (ag_func_finish _ (runGuarded _ AG_ERNO_NULL s)).1
        = (ag_func_finish _ (runGuarded _ AG_ERNO_NULL s)).1
      rw [hL, hR]
      exact ag_func_finish_fst_congr _ _ _ _ out _ _

/-- Counterexample to claim C2 as stated: in a guarded region whose
slot was set to the caller-defined code 5 by ag_erno_set, propagating a
call that returns zero is not a no-op on the error slot: ag_try stores
the zero result into the slot, so the activation's final code becomes 0
where it would have been 5 without the propagate. -/
def claim2F_without : Func Unit :=
  ⟨[Stmt.ag_erno_set (fun _ _ => 5)], [], []⟩

def claim2F_with : Func Unit :=
  ⟨[Stmt.ag_erno_set (fun _ _ => 5),
    Stmt.ag_try (fun s => (AG_ERNO_NULL, s))], [], []⟩

theorem claim2_ag_try_counterexample :
    ag_func_result claim2F_with () = 0
    ∧ ag_func_result claim2F_without () = 5
    ∧ ag_func_result claim2F_with () ≠ ag_func_result claim2F_without () := by
  decide

/-- Concrete instances of claim C2: a propagated call failing with
AG_ERNO_STATE jumps to the catch label carrying that code; a propagated
zero-returning call lets the guarded region continue unchanged. -/
theorem claim2_ag_try_witness :
    runGuarded (Stmt.ag_try (fun s => (AG_ERNO_STATE, s))
        :: ([] : List (Stmt Unit))) AG_ERNO_NULL ()
      = (GuardedOutcome.jumped AG_ERNO_STATE () [], [Event.check true])
    ∧ (runGuarded (Stmt.ag_try (fun s => (AG_ERNO_NULL, s))
        :: ([] : List (Stmt Unit))) AG_ERNO_NULL ()).1
      = (runGuarded ([] : List (Stmt Unit)) AG_ERNO_NULL ()).1 :=
  ⟨((claim2_ag_try (fun s => (AG_ERNO_STATE, s)) [] AG_ERNO_NULL ()).1
      (by decide)).1,
   ((claim2_ag_try (fun s => (AG_ERNO_NULL, s)) [] AG_ERNO_NULL ()).2 rfl).1⟩

/-- Claim C3 (amended): the error-handling region is entered exactly
when some assert or propagate check failed in the guarded region; when
the guarded region completes with no failure, the goto planted by
AG_CATCH transfers control directly to the cleanup region, so code in
the error-handling region does not execute on the success path. -/
theorem claim3_catch_reachability {σ : Type} (F : Func σ) (s : σ) :
    (Event.enter Region.catchR ∈ ag_func_trace F s
      ↔ Event.check true ∈ ag_func_trace F s)
    ∧ (∀ (e : ag_erno) (s1 : σ) (evs : List Event),
        runGuarded F.tryBlock AG_ERNO_NULL s
          = (GuardedOutcome.fellThrough e s1, evs) →
        (ag_func_run F s).1 = runHandler F.finallyBlock e s1
        ∧ Event.enter Region.catchR ∉ ag_func_trace F s) := by
  constructor
  · rcases ag_func_trace_shape F s with ⟨n, h⟩ | ⟨n, h⟩ <;>
      simp [h, List.mem_replicate]
  · intro e s1 evs h
    constructor
    · simp [ag_func_run, h, ag_func_finish]
    · rcases runGuarded_shape F.tryBlock AG_ERNO_NULL s with
        ⟨n, e2, s2, sk, h2⟩ | ⟨n, e2, s2, h2⟩
      · rw [h] at h2
        injection h2 with hout hev
        simp at hout
      · rw [h] at h2
        injection h2 with hout hev
        simp [ag_func_trace, ag_func_run, h, ag_func_finish, hev,
          List.mem_replicate]

/-- Counterexample to claim C3 as stated: an activation whose guarded
region succeeds and whose error-handling region unconditionally sets
the store flag; after the run the flag is still false and the catch
label was never reached, so the handling region's unconditional code
did not execute on the success path. -/
def claim3F : Func Bool :=
  ⟨[Stmt.ag_assert (fun _ _ => true) AG_ERNO_RANGE],
   [HStmt.plain (fun _ _ => true)], []⟩

theorem claim3_catch_counterexample :
    (ag_func_run claim3F false).1 = (AG_ERNO_NULL, false)
    ∧ Event.enter Region.catchR ∉ ag_func_trace claim3F false := by
  decide

/-- Concrete instance of claim C3: on the success path the result comes
from the cleanup region alone and the catch label is never entered. -/
theorem claim3_catch_reachability_witness :
    (ag_func_run claim3F false).1
      = runHandler claim3F.finallyBlock AG_ERNO_NULL false
    ∧ Event.enter Region.catchR ∉ ag_func_trace claim3F false :=
  (claim3_catch_reachability claim3F false).2 AG_ERNO_NULL false
    [Event.check false] rfl

/-- Claim C4: per activation the error state moves from AG_ERNO_NULL to
a failure code at most once: every trace contains at most one failing
check, and when one occurs the very next events are the transfer to the
catch and finally labels, so no further guarded statement or check of
the activation executes after the first failure. -/
theorem claim4_single_failure {σ : Type} (F : Func σ) (s : σ) :
    (ag_func_trace F s).count (Event.check true) ≤ 1
    ∧ (∀ pre suf, ag_func_trace F s = pre ++ Event.check true :: suf →
        suf = [Event.enter Region.catchR, Event.enter Region.finallyR]) := by
  rcases ag_func_trace_shape F s with ⟨n, h⟩ | ⟨n, h⟩
  · constructor
    · rw [h]
      simp [List.count_append, List.count_cons, List.count_replicate]
    · intro pre suf hdec
      rw [h] at hdec
      refine last_occurrence_suffix (Event.check true)
        [Event.enter Region.catchR, Event.enter Region.finallyR]
        (Event.enter Region.guardedR
          :: List.replicate n (Event.check false)) ?_ ?_ pre suf ?_
      · simp [List.mem_replicate]
      · decide
      · simpa using hdec
  · constructor
    · rw [h]
      simp [List.count_append, List.count_cons, List.count_replicate]
    · intro pre suf hdec
      have hmem : Event.check true ∈ ag_func_trace F s := by
        rw [hdec]
        exact List.mem_append_right pre (List.mem_cons_self _ _)
      rw [h] at hmem
      simp [List.mem_replicate] at hmem

/-- Concrete instance of claim C4: a failing assert is the single
failure of its activation and is followed only by the catch and finally
labels. -/
def claim4F : Func Unit :=
  ⟨[Stmt.ag_assert (fun _ _ => false) AG_ERNO_HANDLE], [], []⟩

theorem claim4_single_failure_witness :
    (ag_func_trace claim4F ()).count (Event.check true) ≤ 1
    ∧ ([Event.enter Region.catchR, Event.enter Region.finallyR]
        : List Event)
      = [Event.enter Region.catchR, Event.enter Region.finallyR] :=
  ⟨(claim4_single_failure claim4F ()).1,
   (claim4_single_failure claim4F ()).2 [Event.enter Region.guardedR]
     [Event.enter Region.catchR, Event.enter Region.finallyR] rfl⟩

/-- Claim C5: the cleanup region runs exactly once per activation, on
the success path and on the failure path alike, as the final region of
the run, and the activation's result is produced by the cleanup region;
when no region invokes ag_erno_set, that result is AG_ERNO_NULL on
success and the first failure's code otherwise. -/
theorem claim5_finally_once {σ : Type} (F : Func σ) (s : σ) :
    (ag_func_trace F s).count (Event.enter Region.finallyR) = 1
    ∧ (∃ pre, ag_func_trace F s = pre ++ [Event.enter Region.finallyR])
    ∧ (∃ e1 s1, (ag_func_run F s).1 = runHandler F.finallyBlock e1 s1)
    ∧ (FuncNoErnoSet F →
        (∀ (e : ag_erno) (s1 : σ) (evs : List Event),
          runGuarded F.tryBlock AG_ERNO_NULL s
            = (GuardedOutcome.fellThrough e s1, evs) →
          ag_func_result F s = AG_ERNO_NULL)
        ∧ (∀ (e : ag_erno) (s1 : σ) (sk : List (Stmt σ)) (evs : List Event),
          runGuarded F.tryBlock AG_ERNO_NULL s
            = (GuardedOutcome.jumped e s1 sk, evs) →
          ag_func_result F s = e)) := by
  refine ⟨?_, ?_, ?_, ?_⟩
  · rcases ag_func_trace_shape F s with ⟨n, h⟩ | ⟨n, h⟩ <;>
      · rw [h]
        simp [List.count_append, List.count_cons, List.count_replicate]
  · rcases ag_func_trace_shape F s with ⟨n, h⟩ | ⟨n, h⟩
    · exact ⟨Event.enter Region.guardedR
        :: (List.replicate n (Event.check false)
            ++ [Event.check true, Event.enter Region.catchR]),
        by rw [h]; simp⟩
    · exact ⟨Event.enter Region.guardedR
        :: List.replicate n (Event.check false), by rw [h]; simp⟩
  · rcases hg : runGuarded F.tryBlock AG_ERNO_NULL s with ⟨out, evs⟩
    cases out with
    | fellThrough e s1 =>
      exact ⟨e, s1, by simp [ag_func_run, hg, ag_func_finish]⟩
    | jumped e s1 sk =>
      exact ⟨(runHandler F.catchBlock e s1).1,
        (runHandler F.catchBlock e s1).2,
        by simp [ag_func_run, hg, ag_func_finish]⟩
  · intro hno
    constructor
    · intro e s1 evs h
      have he : e = AG_ERNO_NULL :=
        runGuarded_noSet_success F.tryBlock hno.1 s e s1 (by rw [h])
      have hres : ag_func_result F s = (runHandler F.finallyBlock e s1).1 := by
        simp [ag_func_result, ag_func_run, h, ag_func_finish]
      rw [hres, runHandler_noSet F.finallyBlock hno.2.2, he]
    · intro e s1 sk evs h
      have hres : ag_func_result F s
          = (runHandler F.finallyBlock (runHandler F.catchBlock e s1).1
              (runHandler F.catchBlock e s1).2).1 := by
        simp [ag_func_result, ag_func_run, h, ag_func_finish]
      rw [hres, runHandler_noSet F.finallyBlock hno.2.2,
        runHandler_noSet F.catchBlock hno.2.1]

/-- Concrete instance of claim C5: the cleanup label is entered exactly
once and the failing assert's code is the activation's final result. -/
def claim5F : Func Unit :=
  ⟨[Stmt.ag_assert (fun _ _ => false) AG_ERNO_RANGE], [],
   [HStmt.plain (fun _ st => st)]⟩

theorem claim5_finally_once_witness :
    (ag_func_trace claim5F ()).count (Event.enter Region.finallyR) = 1
    ∧ ag_func_result claim5F () = AG_ERNO_RANGE := by
  have hno : FuncNoErnoSet claim5F := by
    refine ⟨?_, ?_, ?_⟩ <;> intro st hst <;>
      simp [claim5F] at hst <;> simp [hst, Stmt.isErnoSet, HStmt.isErnoSet]
  exact ⟨(claim5_finally_once claim5F ()).1,
    ((claim5_finally_once claim5F ()).2.2.2 hno).2 AG_ERNO_RANGE () []
      [Event.check true] rfl⟩

end Argent
